import Mathlib

set_option maxRecDepth 100000

/-!
A shallow embedding of the `usbd-serial` crate (files `src/buffer.rs`,
`src/serial_port.rs`, `src/io.rs`) together with proofs about it.

Bytes are modelled as `Nat`, byte stores as `List Nat`.  A Rust slice
`store[a..b]` becomes `(store.drop a).take (b - a)`.  Callbacks that
mutate their slice are modelled as functions returning the mutated slice
together with their `Result`.
-/

namespace UsbdSerial

instance {ε α : Type} [DecidableEq ε] [DecidableEq α] :
    DecidableEq (Except ε α) := fun x y =>
  match x, y with
  | .ok a, .ok b => decidable_of_iff (a = b) (by simp)
  | .ok _, .error _ => isFalse (by simp)
  | .error _, .ok _ => isFalse (by simp)
  | .error a, .error b => decidable_of_iff (a = b) (by simp)

/-- The mutation of a byte region: `setRange store pos xs` overwrites
`store[pos .. pos + xs.length]` with `xs` (the embedding of
`copy_from_slice` into a subslice starting at `pos`). -/
def setRange (store : List Nat) (pos : Nat) (xs : List Nat) : List Nat :=
  store.take pos ++ xs ++ store.drop (pos + xs.length)

/-- The buffer of `src/buffer.rs`: a byte store and two cursors.
`wpos` points to the first byte that can be written, `rpos` at the next
byte that can be read. -/
structure Buffer where
  store : List Nat
  rpos : Nat
  wpos : Nat
  deriving DecidableEq, Repr

namespace Buffer

/-- Embeds `Buffer::new` — both cursors at 0. -/
def new (store : List Nat) : Buffer :=
  { store := store, rpos := 0, wpos := 0 }

/-- Embeds `Buffer::clear` — reset both cursors. -/
def clear (b : Buffer) : Buffer :=
  { b with rpos := 0, wpos := 0 }

/-- Embeds `Buffer::available_read` — bytes available for reading. -/
def available_read (b : Buffer) : Nat :=
  b.wpos - b.rpos

/-- Embeds `Buffer::available_write_without_discard` — contiguous tail space. -/
def available_write_without_discard (b : Buffer) : Nat :=
  b.store.length - b.wpos

/-- Embeds `Buffer::available_write` — total space, reclaimable head included. -/
def available_write (b : Buffer) : Nat :=
  b.available_write_without_discard + b.rpos

/-- Embeds `Buffer::discard_already_read_data` — the `ptr::copy` moves
`available_read` bytes from position `rpos` to position 0; bytes from
position `available_read` on are untouched.  Then `wpos -= rpos; rpos = 0`. -/
def discard_already_read_data (b : Buffer) : Buffer :=
  { store := (b.store.drop b.rpos).take (b.wpos - b.rpos) ++
      b.store.drop (b.wpos - b.rpos),
    rpos := 0,
    wpos := b.wpos - b.rpos }

/-- The copy stage of `Buffer::write` (everything after the possible
compaction): take `count = min(available_write_without_discard, data.len())`
bytes, copy them to the tail, advance `wpos`. -/
def write_copy (b : Buffer) (data : List Nat) : Buffer × Nat :=
  let count := min b.available_write_without_discard data.length
  if count = 0 then (b, 0)
  else
    ({ store := setRange b.store b.wpos (data.take count),
       rpos := b.rpos,
       wpos := b.wpos + count }, count)

/-- Embeds `Buffer::write` — compacts first when the data does not fit in the
contiguous tail and there is read data to discard. -/
def write (b : Buffer) (data : List Nat) : Buffer × Nat :=
  if b.available_write_without_discard < data.length ∧ 0 < b.rpos then
    (b.discard_already_read_data).write_copy data
  else
    b.write_copy data

/-- The callback stage of `Buffer::write_all`: hand the callback the
slice `store[wpos .. wpos + maxCount]`; install the mutated slice; on
`Ok(count)` advance `wpos` by `count`, on `Err` leave the cursors. -/
def write_all_core {E : Type} (b : Buffer) (maxCount : Nat)
    (f : List Nat → List Nat × Except E Nat) : Buffer × Except E Nat :=
  let (out, res) := f ((b.store.drop b.wpos).take maxCount)
  let store' := setRange b.store b.wpos (out.take maxCount)
  match res with
  | .ok count =>
      ({ store := store', rpos := b.rpos, wpos := b.wpos + count }, .ok count)
  | .error e => ({ b with store := store' }, .error e)

/-- Embeds `Buffer::write_all` — reserve `maxCount` bytes (compacting if
needed); if they do not fit even after a compaction, return `Ok(0)`
without invoking the callback. -/
def write_all {E : Type} (b : Buffer) (maxCount : Nat)
    (f : List Nat → List Nat × Except E Nat) : Buffer × Except E Nat :=
  if b.available_write_without_discard < maxCount then
    if b.available_write < maxCount then (b, .ok 0)
    else (b.discard_already_read_data).write_all_core maxCount f
  else
    b.write_all_core maxCount f

/-- Embeds `Buffer::read` — hand the callback the slice
`store[rpos .. rpos + min maxCount available_read]`; on `Ok(count)`
advance `rpos` by `count`, on `Err` leave the buffer untouched. -/
def read {E : Type} (b : Buffer) (maxCount : Nat)
    (f : List Nat → Except E Nat) : Buffer × Except E Nat :=
  let count := min maxCount b.available_read
  match f ((b.store.drop b.rpos).take count) with
  | .ok c => ({ b with rpos := b.rpos + c }, .ok c)
  | .error e => (b, .error e)

/-- The live window `store[rpos .. wpos]` — the bytes currently held. -/
def live (b : Buffer) : List Nat :=
  (b.store.drop b.rpos).take b.available_read

/-- The cursor invariant of the buffer (`0 ≤ rpos` is implicit in `Nat`). -/
def inv (b : Buffer) : Prop :=
  b.rpos ≤ b.wpos ∧ b.wpos ≤ b.store.length

instance (b : Buffer) : Decidable b.inv := by
  unfold inv; infer_instance

end Buffer

/-- Embeds `usb_device::UsbError`. -/
inductive UsbError where
  | wouldBlock
  | parseError
  | bufferOverflow
  | endpointOverflow
  | endpointMemoryOverflow
  | invalidEndpoint
  | unsupported
  | invalidState
  deriving DecidableEq, Repr

/-- The `embedded_io::ErrorKind` values produced by `Error::kind` in
`src/io.rs`. -/
inductive ErrorKind where
  | other
  | unsupported
  | outOfMemory
  deriving DecidableEq, Repr

/-- Embeds `Error::kind` from `src/io.rs`. -/
def Error.kind : UsbError → ErrorKind
  | .unsupported => .unsupported
  | .bufferOverflow => .outOfMemory
  | .endpointOverflow => .outOfMemory
  | .endpointMemoryOverflow => .outOfMemory
  | _ => .other

/-- Embeds `WriteState` of `src/serial_port.rs`. -/
inductive WriteState where
  | idle
  | short
  | full (count : Nat)
  deriving DecidableEq, Repr

/-- Embeds `SHORT_PACKET_INTERVAL` of `src/serial_port.rs`. -/
def SHORT_PACKET_INTERVAL : Nat := 10

/-- The serial port is constructed with
`CdcAcmClass::new_with_interface_names(alloc, 64, ..)`, so
`max_packet_size()` is 64. -/
def maxPacketSize : Nat := 64

/-- The transmit half of `SerialPort`: TX buffer and write state. -/
structure TxPort where
  writeBuf : Buffer
  writeState : WriteState
  deriving DecidableEq, Repr

/-- The endpoint's answer to one `write_packet` call: `Ok(())`, or an
error (possibly `WouldBlock`). -/
abbrev EpWriteResp := Except UsbError Unit

/-- Outcome of one `SerialPort::flush` call: the new port state, the
returned `Result`, and the packet handed to `write_packet` (`none` when
no endpoint call was made). -/
structure FlushOut where
  port : TxPort
  result : Except UsbError Unit
  packet : Option (List Nat)
  deriving DecidableEq, Repr

/-- Embeds `SerialPort::flush`.  The single possible `write_packet` call is
resolved by `resp`.  The buffer effect goes through `Buffer.read`
exactly as in the source; the write-state update performed inside the
closure is computed from the slice the closure receives. -/
def flush (resp : EpWriteResp) (s : TxPort) : FlushOut :=
  let fullCount := match s.writeState with
    | .full c => c
    | _ => 0
  if 0 < s.writeBuf.available_read then
    let maxWriteSize :=
      if SHORT_PACKET_INTERVAL ≤ fullCount then maxPacketSize - 1
      else maxPacketSize
    let bufData := (s.writeBuf.store.drop s.writeBuf.rpos).take
      (min maxWriteSize s.writeBuf.available_read)
    match s.writeBuf.read maxWriteSize (fun d =>
        match resp with
        | .ok _ => .ok d.length
        | .error e => .error e) with
    | (buf', .ok _) =>
        { port :=
            { writeBuf := buf',
              writeState :=
                if bufData.length = maxPacketSize then .full (fullCount + 1)
                else .short },
          result := .error .wouldBlock,
          packet := some bufData }
    | (buf', .error e) =>
        { port := { writeBuf := buf', writeState := s.writeState },
          result := .error e,
          packet := some bufData }
  else if fullCount ≠ 0 then
    match resp with
    | .ok _ =>
        { port := { writeBuf := s.writeBuf, writeState := .short },
          result := .error .wouldBlock,
          packet := some [] }
    | .error e => { port := s, result := .error e, packet := some [] }
  else
    { port := { writeBuf := s.writeBuf, writeState := .idle },
      result := .ok (),
      packet := none }

/-- Embeds `SerialPort::write`: buffer the data, flush once, absorb
`Ok`/`WouldBlock` from the flush, then answer from the buffered count. -/
def serialWrite (resp : EpWriteResp) (data : List Nat) (s : TxPort) :
    TxPort × Except UsbError Nat :=
  let r := s.writeBuf.write data
  let out := flush resp { writeBuf := r.1, writeState := s.writeState }
  match out.result with
  | .ok _ =>
      (out.port, if r.2 = 0 then .error .wouldBlock else .ok r.2)
  | .error .wouldBlock =>
      (out.port, if r.2 = 0 then .error .wouldBlock else .ok r.2)
  | .error e => (out.port, .error e)

/-- Repeatedly `flush` against an always-accepting endpoint, collecting
the packets put on the wire, until flush returns `Ok` (or fuel runs
out). -/
def drainFlush : Nat → TxPort → List (List Nat)
  | 0, _ => []
  | fuel + 1, s =>
      let out := flush (.ok ()) s
      match out.result with
      | .ok _ => []
      | .error _ =>
          (match out.packet with
           | some p => [p]
           | none => []) ++ drainFlush fuel out.port

/-- The receive half of `SerialPort`: RX buffer and the stored RX waker
(modelled as "a waker is present"). -/
structure RxPort where
  readBuf : Buffer
  readWaker : Bool
  deriving DecidableEq, Repr

/-- The endpoint's answer to one `read_packet` call: the received
packet, or an error (possibly `WouldBlock`). -/
abbrev EpReadResp := Except UsbError (List Nat)

/-- Outcome of one `SerialPort::poll` call: new port state, returned
`Result`, and whether a stored waker was woken. -/
structure PollOut where
  port : RxPort
  result : Except UsbError Unit
  woke : Bool
  deriving DecidableEq, Repr

/-- The closure `poll` passes to `write_all`: `read_packet` fills the
front of the slice and returns the byte count; `WouldBlock` is mapped to
`Ok(0)`; other errors propagate. -/
def pollCallback (resp : EpReadResp) (slice : List Nat) :
    List Nat × Except UsbError Nat :=
  match resp with
  | .ok pkt => (pkt.take slice.length ++ slice.drop pkt.length, .ok pkt.length)
  | .error .wouldBlock => (slice, .ok 0)
  | .error e => (slice, .error e)

/-- Embeds `SerialPort::poll`: commit one packet into the RX buffer via
`write_all`, then (unless an error propagated) take and wake the stored
RX waker. -/
def poll (resp : EpReadResp) (s : RxPort) : PollOut :=
  match s.readBuf.write_all maxPacketSize (pollCallback resp) with
  | (buf', .ok _) =>
      { port := { readBuf := buf', readWaker := false },
        result := .ok (),
        woke := s.readWaker }
  | (buf', .error e) =>
      { port := { readBuf := buf', readWaker := s.readWaker },
        result := .error e,
        woke := false }

/-- Embeds `SerialPort::read` with a destination slice of length `dstLen`:
poll, fail with `WouldBlock` on an empty RX buffer, otherwise read up to
`dstLen` bytes (the copy callback returns the full slice length). -/
def serialRead (resp : EpReadResp) (dstLen : Nat) (s : RxPort) :
    RxPort × Except UsbError Nat :=
  let p := poll resp s
  match p.result with
  | .error e => (p.port, .error e)
  | .ok _ =>
      if p.port.readBuf.available_read = 0 then (p.port, .error .wouldBlock)
      else
        let r := p.port.readBuf.read dstLen
          (fun d => Except.ok (ε := UsbError) d.length)
        ({ p.port with readBuf := r.1 }, r.2)

/-- The buffer `write_all` actually stages into: `b` itself when
`maxCount` fits the contiguous tail, the compacted buffer otherwise. -/
def Buffer.write_all_base (b : Buffer) (maxCount : Nat) : Buffer :=
  if b.available_write_without_discard < maxCount then
    b.discard_already_read_data
  else b

/-- One buffer operation, for the cursor-discipline property.  The
callbacks carried by `writeAllOp`/`readOp` are arbitrary. -/
inductive BufOp (E : Type) where
  | clearOp
  | writeOp (data : List Nat)
  | writeAllOp (maxCount : Nat) (f : List Nat → List Nat × Except E Nat)
  | readOp (maxCount : Nat) (f : List Nat → Except E Nat)

/-- The buffer effect of one operation. -/
def applyOp {E : Type} : BufOp E → Buffer → Buffer
  | .clearOp, b => b.clear
  | .writeOp d, b => (b.write d).1
  | .writeAllOp m f, b => (b.write_all m f).1
  | .readOp m f, b => (b.read m f).1

/-- The callback contract assumed by the buffer: a callback returns a
count no larger than the slice it was given. -/
def goodOp {E : Type} : BufOp E → Prop
  | .writeAllOp _ f => ∀ s c, (f s).2 = .ok c → c ≤ s.length
  | .readOp _ f => ∀ s c, f s = .ok c → c ≤ s.length
  | _ => True

/-- Run a sequence of buffer operations. -/
def runOps {E : Type} (ops : List (BufOp E)) (b : Buffer) : Buffer :=
  ops.foldl (fun b op => applyOp op b) b

/-- One step of the FIFO machine: a `write`, or a `read` whose callback
succeeds returning its full slice length. -/
inductive IoOp where
  | ioWrite (data : List Nat)
  | ioRead (maxCount : Nat)

/-- The FIFO machine state: the buffer, the bytes accepted by writes so
far, and the bytes observed by read callbacks so far. -/
structure FifoState where
  buf : Buffer
  accepted : List Nat
  observed : List Nat

/-- One step of the FIFO machine.  A read callback observes exactly the
slice `store[rpos .. rpos + min maxCount available_read]` that
`Buffer::read` passes it, and returns its full length. -/
def fifoStep (op : IoOp) (s : FifoState) : FifoState :=
  match op with
  | .ioWrite d =>
      let r := s.buf.write d
      { buf := r.1, accepted := s.accepted ++ d.take r.2,
        observed := s.observed }
  | .ioRead m =>
      { buf := (s.buf.read m (fun d => Except.ok (ε := Unit) d.length)).1,
        accepted := s.accepted,
        observed := s.observed ++
          (s.buf.store.drop s.buf.rpos).take (min m s.buf.available_read) }

/-- Run the FIFO machine. -/
def runFifo (ops : List IoOp) (s : FifoState) : FifoState :=
  ops.foldl (fun s op => fifoStep op s) s

/-- The FIFO machine invariant: cursors are sound and the observed
bytes followed by the live window are exactly the accepted bytes. -/
def FifoState.good (s : FifoState) : Prop :=
  s.buf.inv ∧ s.observed ++ s.buf.live = s.accepted

/-- A TX port holding 768 buffered bytes (scenario C of the spec). -/
def c1port : TxPort :=
  { writeBuf := { store := List.replicate 768 0, rpos := 0, wpos := 768 },
    writeState := .idle }

/-- A TX port with 64 buffered bytes after nine consecutive full
packets. -/
def c1full9 : TxPort :=
  { writeBuf := { store := List.replicate 64 0, rpos := 0, wpos := 64 },
    writeState := .full 9 }

/-- A TX port with 64 buffered bytes after ten consecutive full
packets. -/
def c1full10 : TxPort :=
  { writeBuf := { store := List.replicate 64 0, rpos := 0, wpos := 64 },
    writeState := .full 10 }

/-- An RX port with an empty 128-byte buffer and a stored RX waker. -/
def c2rx : RxPort :=
  { readBuf := Buffer.new (List.replicate 128 0), readWaker := true }

/-- A buffer whose live window `[12, 13]` sits at `rpos = 2`. -/
def c7buf : Buffer := { store := [10, 11, 12, 13], rpos := 2, wpos := 4 }

/-- A `write_all` callback that always fails. -/
def c7f : List Nat → List Nat × Except Unit Nat := fun s => (s, .error ())

/-- An RX port whose buffer already holds five bytes. -/
def c10rx : RxPort :=
  { readBuf := { store := List.replicate 128 9, rpos := 0, wpos := 5 },
    readWaker := false }

/-! ### Helper lemmas on `setRange` and cut-out list slices -/

theorem setRange_length (store : List Nat) (pos : Nat) (xs : List Nat)
    (h : pos + xs.length ≤ store.length) :
    (setRange store pos xs).length = store.length := by
  simp only [setRange, List.length_append, List.length_take, List.length_drop]
  omega

theorem setRange_take (store : List Nat) (pos : Nat) (xs : List Nat)
    (h : pos ≤ store.length) :
    (setRange store pos xs).take pos = store.take pos := by
  have hlen : (store.take pos).length = pos := by
    rw [List.length_take]; omega
  rw [setRange, List.append_assoc, List.take_left' hlen]

theorem setRange_drop_self (store : List Nat) (pos : Nat) (xs : List Nat)
    (h : pos ≤ store.length) :
    (setRange store pos xs).drop pos = xs ++ store.drop (pos + xs.length) := by
  have hlen : (store.take pos).length = pos := by
    rw [List.length_take]; omega
  rw [setRange, List.append_assoc, List.drop_left' hlen]

theorem setRange_drop_after (store : List Nat) (pos : Nat) (xs : List Nat)
    (h : pos ≤ store.length) :
    (setRange store pos xs).drop (pos + xs.length) =
      store.drop (pos + xs.length) := by
  have hlen : (store.take pos ++ xs).length = pos + xs.length := by
    simp only [List.length_append, List.length_take]; omega
  rw [setRange, List.drop_left' hlen]

theorem take_append_drop_min (l : List Nat) (k : Nat) :
    l.take k ++ l.drop (min k l.length) = l := by
  rcases Nat.le_total k l.length with hk | hk
  · rw [Nat.min_eq_left hk, List.take_append_drop]
  · rw [Nat.min_eq_right hk, List.drop_length, List.take_of_length_le hk,
      List.append_nil]

theorem setRange_self (store : List Nat) (pos k : Nat) :
    setRange store pos ((store.drop pos).take k) = store := by
  rw [setRange, List.length_take, List.length_drop]
  have h1 : store.drop (pos + min k (store.length - pos)) =
      (store.drop pos).drop (min k (store.length - pos)) := by
    rw [List.drop_drop]
  rw [h1]
  have h2 : min k (store.length - pos) = min k (store.drop pos).length := by
    rw [List.length_drop]
  rw [List.append_assoc, h2, take_append_drop_min, List.take_append_drop]

/-! ### Helper lemmas on the buffer -/

namespace Buffer

theorem live_length (b : Buffer) (h : b.inv) :
    b.live.length = b.available_read := by
  obtain ⟨h1, h2⟩ := h
  simp only [live, available_read, List.length_take, List.length_drop]
  omega

theorem discard_length (b : Buffer) (h : b.inv) :
    b.discard_already_read_data.store.length = b.store.length := by
  obtain ⟨h1, h2⟩ := h
  simp only [discard_already_read_data, List.length_append, List.length_take,
    List.length_drop]
  omega

theorem discard_live (b : Buffer) (h : b.inv) :
    b.discard_already_read_data.live = b.live := by
  obtain ⟨h1, h2⟩ := h
  have hlen : ((b.store.drop b.rpos).take (b.wpos - b.rpos)).length =
      b.wpos - b.rpos := by
    simp only [List.length_take, List.length_drop]; omega
  simp only [discard_already_read_data, live, available_read, List.drop_zero,
    Nat.sub_zero]
  rw [List.take_left' hlen]

theorem discard_inv (b : Buffer) (h : b.inv) :
    b.discard_already_read_data.inv := by
  obtain ⟨h1, h2⟩ := h
  constructor
  · exact Nat.zero_le _
  · rw [discard_length b ⟨h1, h2⟩]
    simp only [discard_already_read_data]
    omega

theorem discard_available_read (b : Buffer) :
    b.discard_already_read_data.available_read = b.available_read := by
  simp [discard_already_read_data, available_read]

theorem discard_available_write (b : Buffer) (h : b.inv) :
    b.discard_already_read_data.available_write = b.available_write := by
  obtain ⟨h1, h2⟩ := h
  simp only [available_write, available_write_without_discard,
    discard_already_read_data, List.length_append, List.length_take,
    List.length_drop]
  omega

theorem discard_contig (b : Buffer) (h : b.inv) :
    b.discard_already_read_data.available_write_without_discard =
      b.available_write := by
  obtain ⟨h1, h2⟩ := h
  simp only [available_write, available_write_without_discard,
    discard_already_read_data, List.length_append, List.length_take,
    List.length_drop]
  omega

/-- The slice `Buffer::read` passes its callback is `live.take maxCount`. -/
theorem read_slice_eq (b : Buffer) (m : Nat) :
    (b.store.drop b.rpos).take (min m b.available_read) = b.live.take m := by
  rw [live, List.take_take]

/-- Appending `xs` at `wpos` and advancing `wpos` by `k ≤ xs.length`
extends the live window by `xs.take k`. -/
theorem live_set (b : Buffer) (xs : List Nat) (k : Nat) (h : b.inv)
    (hk : k ≤ xs.length) :
    Buffer.live
        { store := setRange b.store b.wpos xs, rpos := b.rpos,
          wpos := b.wpos + k } =
      b.live ++ xs.take k := by
  obtain ⟨h1, h2⟩ := h
  have hwlen : (b.store.take b.wpos).length = b.wpos := by
    rw [List.length_take]; omega
  have hdrop : (setRange b.store b.wpos xs).drop b.rpos =
      (b.store.take b.wpos).drop b.rpos ++
        (xs ++ b.store.drop (b.wpos + xs.length)) := by
    rw [setRange, List.append_assoc, List.drop_append_eq_append_drop, hwlen]
    have hz : b.rpos - b.wpos = 0 := by omega
    rw [hz, List.drop_zero]
  have hl : ((b.store.take b.wpos).drop b.rpos).length = b.wpos - b.rpos := by
    simp only [List.length_drop, List.length_take]; omega
  simp only [Buffer.live, Buffer.available_read]
  rw [hdrop]
  have havail : b.wpos + k - b.rpos = (b.wpos - b.rpos) + k := by omega
  rw [havail, List.take_add]
  congr 1
  · rw [List.take_left' hl, List.drop_take]
  · rw [List.drop_left' hl, List.take_append_eq_append_take]
    have hz : k - xs.length = 0 := by omega
    rw [hz, List.take_zero, List.append_nil]

/-- Advancing `rpos` by `c` drops `c` bytes from the live window. -/
theorem live_read_adv (b : Buffer) (c : Nat) :
    Buffer.live { store := b.store, rpos := b.rpos + c, wpos := b.wpos } =
      b.live.drop c := by
  simp only [live, available_read]
  rw [List.drop_take, List.drop_drop]
  congr 1
  omega

/-- Unfolding equation for `write_copy`. -/
theorem write_copy_eq (b : Buffer) (data : List Nat) :
    b.write_copy data =
      if min b.available_write_without_discard data.length = 0 then (b, 0)
      else
        ({ store := setRange b.store b.wpos
             (data.take (min b.available_write_without_discard data.length)),
           rpos := b.rpos,
           wpos := b.wpos + min b.available_write_without_discard data.length },
         min b.available_write_without_discard data.length) :=
  rfl

/-- Behaviour of the copy stage of `write`: the returned count, cursor
moves, store length, live window and invariant. -/
theorem write_copy_spec (b : Buffer) (data : List Nat) (h : b.inv) :
    (b.write_copy data).2 = min b.available_write_without_discard data.length ∧
    (b.write_copy data).1.rpos = b.rpos ∧
    (b.write_copy data).1.wpos = b.wpos + (b.write_copy data).2 ∧
    (b.write_copy data).1.store.length = b.store.length ∧
    (b.write_copy data).1.live = b.live ++ data.take (b.write_copy data).2 ∧
    (b.write_copy data).1.inv := by
  obtain ⟨h1, h2⟩ := h
  have hA : b.available_write_without_discard = b.store.length - b.wpos := rfl
  rw [write_copy_eq]
  set n := min b.available_write_without_discard data.length with hn
  have hn1 : n ≤ b.available_write_without_discard := Nat.min_le_left _ _
  have hn2 : n ≤ data.length := Nat.min_le_right _ _
  by_cases h0 : n = 0
  · rw [if_pos h0]
    refine ⟨h0.symm, rfl, by simp [h0], rfl, by simp [h0], h1, h2⟩
  · rw [if_neg h0]
    have htl : (data.take n).length = n := by
      rw [List.length_take]; omega
    have hfit : b.wpos + (data.take n).length ≤ b.store.length := by
      rw [htl]; omega
    have hlen := setRange_length b.store b.wpos _ hfit
    refine ⟨rfl, rfl, rfl, hlen, ?_, ?_, ?_⟩
    · have hls := live_set b (data.take n) n ⟨h1, h2⟩ (Nat.le_of_eq htl.symm)
      rw [hls, List.take_take, Nat.min_self]
    · exact Nat.le_trans h1 (Nat.le_add_right _ _)
    · show b.wpos + n ≤ (setRange b.store b.wpos (data.take n)).length
      rw [hlen]; omega

/-- Behaviour of `write`: live window extension, invariant and store
length preservation. -/
theorem write_spec (b : Buffer) (data : List Nat) (h : b.inv) :
    (b.write data).1.live = b.live ++ data.take (b.write data).2 ∧
    (b.write data).1.inv ∧
    (b.write data).1.store.length = b.store.length := by
  unfold write
  by_cases hc : b.available_write_without_discard < data.length ∧ 0 < b.rpos
  · simp only [if_pos hc]
    have hd := discard_inv b h
    obtain ⟨s1, _, _, s4, s5, s6⟩ :=
      write_copy_spec (b.discard_already_read_data) data hd
    refine ⟨?_, s6, ?_⟩
    · rw [s5, discard_live b h]
    · rw [s4, discard_length b h]
  · simp only [if_neg hc]
    obtain ⟨_, _, _, s4, s5, s6⟩ := write_copy_spec b data h
    exact ⟨s5, s6, s4⟩

/-- Lemma: `write_all` with a reservation that fits the total space stages into
`write_all_base`. -/
theorem write_all_eq_core {E : Type} (b : Buffer) (m : Nat)
    (f : List Nat → List Nat × Except E Nat) (hm : m ≤ b.available_write) :
    b.write_all m f = (b.write_all_base m).write_all_core m f := by
  unfold write_all write_all_base
  by_cases hc : b.available_write_without_discard < m
  · have hnb : ¬ b.available_write < m := by omega
    rw [if_pos hc, if_pos hc, if_neg hnb]
  · rw [if_neg hc, if_neg hc]

theorem write_all_base_inv (b : Buffer) (m : Nat) (h : b.inv) :
    (b.write_all_base m).inv := by
  unfold write_all_base
  split
  · exact discard_inv b h
  · exact h

theorem write_all_base_live (b : Buffer) (m : Nat) (h : b.inv) :
    (b.write_all_base m).live = b.live := by
  unfold write_all_base
  split
  · exact discard_live b h
  · rfl

theorem write_all_base_length (b : Buffer) (m : Nat) (h : b.inv) :
    (b.write_all_base m).store.length = b.store.length := by
  unfold write_all_base
  split
  · exact discard_length b h
  · rfl

theorem write_all_base_contig (b : Buffer) (m : Nat) (h : b.inv)
    (hm : m ≤ b.available_write) :
    m ≤ (b.write_all_base m).available_write_without_discard := by
  unfold write_all_base
  split
  · rw [discard_contig b h]
    exact hm
  · omega

/-- Unfolding equation for `write_all_core` on a succeeding callback. -/
theorem write_all_core_ok {E : Type} (b₁ : Buffer) (m : Nat)
    (f : List Nat → List Nat × Except E Nat) (out : List Nat) (c : Nat)
    (hf : f ((b₁.store.drop b₁.wpos).take m) = (out, .ok c)) :
    b₁.write_all_core m f =
      ({ store := setRange b₁.store b₁.wpos (out.take m), rpos := b₁.rpos,
         wpos := b₁.wpos + c }, .ok c) := by
  unfold write_all_core
  rw [hf]

/-- Unfolding equation for `write_all_core` on a failing callback. -/
theorem write_all_core_err {E : Type} (b₁ : Buffer) (m : Nat)
    (f : List Nat → List Nat × Except E Nat) (out : List Nat) (e : E)
    (hf : f ((b₁.store.drop b₁.wpos).take m) = (out, .error e)) :
    b₁.write_all_core m f =
      ({ b₁ with store := setRange b₁.store b₁.wpos (out.take m) },
       .error e) := by
  unfold write_all_core
  rw [hf]

/-- Unfolding equation for `read` on a succeeding callback. -/
theorem read_ok {E : Type} (b : Buffer) (m : Nat)
    (f : List Nat → Except E Nat) (c : Nat)
    (hf : f ((b.store.drop b.rpos).take (min m b.available_read)) = .ok c) :
    b.read m f = ({ b with rpos := b.rpos + c }, .ok c) := by
  simp only [read, hf]

/-- Unfolding equation for `read` on a failing callback. -/
theorem read_err {E : Type} (b : Buffer) (m : Nat)
    (f : List Nat → Except E Nat) (e : E)
    (hf : f ((b.store.drop b.rpos).take (min m b.available_read)) =
      .error e) :
    b.read m f = (b, .error e) := by
  simp only [read, hf]

theorem clear_inv (b : Buffer) : b.clear.inv :=
  ⟨Nat.le_refl 0, Nat.zero_le _⟩

theorem read_inv {E : Type} (b : Buffer) (m : Nat)
    (f : List Nat → Except E Nat) (h : b.inv)
    (hg : ∀ s c, f s = .ok c → c ≤ s.length) : (b.read m f).1.inv := by
  obtain ⟨h1, h2⟩ := h
  cases hf : f ((b.store.drop b.rpos).take (min m b.available_read)) with
  | ok c =>
      rw [read_ok b m f c hf]
      have hc := hg _ _ hf
      have hsl : ((b.store.drop b.rpos).take
          (min m b.available_read)).length ≤ b.wpos - b.rpos := by
        rw [List.length_take, List.length_drop]
        simp only [available_read]
        omega
      refine ⟨?_, h2⟩
      show b.rpos + c ≤ b.wpos
      omega
  | error e =>
      rw [read_err b m f e hf]
      exact ⟨h1, h2⟩

theorem write_all_core_inv {E : Type} (b₁ : Buffer) (m : Nat)
    (f : List Nat → List Nat × Except E Nat) (h : b₁.inv)
    (hm : m ≤ b₁.available_write_without_discard)
    (hg : ∀ s c, (f s).2 = .ok c → c ≤ s.length) :
    (b₁.write_all_core m f).1.inv ∧
    (b₁.write_all_core m f).1.store.length = b₁.store.length := by
  obtain ⟨h1, h2⟩ := h
  have hA : b₁.available_write_without_discard =
      b₁.store.length - b₁.wpos := rfl
  have hSlen : ((b₁.store.drop b₁.wpos).take m).length = m := by
    rw [List.length_take, List.length_drop]
    omega
  cases hres : (f ((b₁.store.drop b₁.wpos).take m)).2 with
  | ok c =>
      have hfe : f ((b₁.store.drop b₁.wpos).take m) =
          ((f ((b₁.store.drop b₁.wpos).take m)).1, .ok c) := by
        rw [← hres]
      rw [write_all_core_ok b₁ m f _ c hfe]
      have hc : c ≤ m := by
        have := hg _ _ hres
        omega
      have hout : (((f ((b₁.store.drop b₁.wpos).take m)).1).take m).length ≤
          m := by
        rw [List.length_take]
        omega
      have hfit : b₁.wpos +
          (((f ((b₁.store.drop b₁.wpos).take m)).1).take m).length ≤
          b₁.store.length := by omega
      have hlen := setRange_length b₁.store b₁.wpos _ hfit
      refine ⟨⟨Nat.le_trans h1 (Nat.le_add_right _ _), ?_⟩, hlen⟩
      show b₁.wpos + c ≤ (setRange b₁.store b₁.wpos _).length
      rw [hlen]
      omega
  | error e =>
      have hfe : f ((b₁.store.drop b₁.wpos).take m) =
          ((f ((b₁.store.drop b₁.wpos).take m)).1, .error e) := by
        rw [← hres]
      rw [write_all_core_err b₁ m f _ e hfe]
      have hout : (((f ((b₁.store.drop b₁.wpos).take m)).1).take m).length ≤
          m := by
        rw [List.length_take]
        omega
      have hfit : b₁.wpos +
          (((f ((b₁.store.drop b₁.wpos).take m)).1).take m).length ≤
          b₁.store.length := by omega
      have hlen := setRange_length b₁.store b₁.wpos _ hfit
      refine ⟨⟨h1, ?_⟩, hlen⟩
      show b₁.wpos ≤ (setRange b₁.store b₁.wpos _).length
      rw [hlen]
      omega

theorem write_all_inv {E : Type} (b : Buffer) (m : Nat)
    (f : List Nat → List Nat × Except E Nat) (h : b.inv)
    (hg : ∀ s c, (f s).2 = .ok c → c ≤ s.length) :
    (b.write_all m f).1.inv := by
  unfold write_all
  by_cases hc1 : b.available_write_without_discard < m
  · rw [if_pos hc1]
    by_cases hc2 : b.available_write < m
    · rw [if_pos hc2]
      exact h
    · rw [if_neg hc2]
      have hd := discard_inv b h
      have hdc : m ≤
          b.discard_already_read_data.available_write_without_discard := by
        rw [discard_contig b h]
        omega
      exact (write_all_core_inv _ m f hd hdc hg).1
  · rw [if_neg hc1]
    exact (write_all_core_inv b m f h (by omega) hg).1

end Buffer

/-- A list take never exceeds the list: `take m` equals
`take (min m length)`. -/
theorem take_min_length (l : List Nat) (m : Nat) :
    l.take m = l.take (min m l.length) := by
  rcases Nat.le_total m l.length with hm | hm
  · rw [Nat.min_eq_left hm]
  · rw [Nat.min_eq_right hm, List.take_of_length_le hm,
      List.take_of_length_le (Nat.le_refl _)]

/-- One buffer operation with a law-abiding callback preserves the
cursor invariant. -/
theorem applyOp_inv {E : Type} (op : BufOp E) (b : Buffer)
    (hg : goodOp op) (h : b.inv) : (applyOp op b).inv := by
  cases op with
  | clearOp => exact Buffer.clear_inv b
  | writeOp d => exact (Buffer.write_spec b d h).2.1
  | writeAllOp m f => exact Buffer.write_all_inv b m f h hg
  | readOp m f => exact Buffer.read_inv b m f h hg

theorem runOps_inv {E : Type} (ops : List (BufOp E)) (b : Buffer)
    (hg : ∀ op ∈ ops, goodOp op) (h : b.inv) : (runOps ops b).inv := by
  induction ops generalizing b with
  | nil => exact h
  | cons op rest ih =>
      exact ih _ (fun o ho => hg o (List.mem_cons_of_mem _ ho))
        (applyOp_inv op b (hg op (List.mem_cons_self _ _)) h)

/-- One FIFO step preserves the FIFO invariant. -/
theorem fifoStep_good (op : IoOp) (s : FifoState) (h : s.good) :
    (fifoStep op s).good := by
  obtain ⟨hinv, hfifo⟩ := h
  cases op with
  | ioWrite d =>
      obtain ⟨w1, w2, _⟩ := Buffer.write_spec s.buf d hinv
      refine ⟨w2, ?_⟩
      simp only [fifoStep]
      rw [w1, ← List.append_assoc, hfifo]
  | ioRead m =>
      have hread : s.buf.read m (fun d => Except.ok (ε := Unit) d.length) =
          ({ s.buf with rpos := s.buf.rpos +
              ((s.buf.store.drop s.buf.rpos).take
                (min m s.buf.available_read)).length },
           .ok ((s.buf.store.drop s.buf.rpos).take
                (min m s.buf.available_read)).length) :=
        Buffer.read_ok s.buf m _ _ rfl
      have hSlen : ((s.buf.store.drop s.buf.rpos).take
          (min m s.buf.available_read)).length =
          min m s.buf.available_read := by
        obtain ⟨i1, i2⟩ := hinv
        rw [List.length_take, List.length_drop]
        simp only [Buffer.available_read]
        omega
      refine ⟨?_, ?_⟩
      · exact Buffer.read_inv _ _ _ hinv
          (fun s c hc => by
            injection hc with he
            exact Nat.le_of_eq he.symm)
      · simp only [fifoStep, hread]
        rw [hSlen, Buffer.live_read_adv, Buffer.read_slice_eq]
        have hlt : s.buf.live.take m =
            s.buf.live.take (min m s.buf.available_read) := by
          rw [take_min_length, Buffer.live_length s.buf hinv]
        rw [hlt, List.append_assoc, List.take_append_drop, hfifo]

theorem runFifo_good (ops : List IoOp) (s : FifoState) (h : s.good) :
    (runFifo ops s).good := by
  induction ops generalizing s with
  | nil => exact h
  | cons op rest ih => exact ih _ (fifoStep_good op s h)

/-! ### Serial-port lemmas -/

/-- Lemma: `flush` on an empty TX buffer in a `Full(k)`, `k ≠ 0` state: a ZLP
is submitted; on success the state becomes `Short` and `WouldBlock` is
returned; an endpoint error propagates with the port unchanged. -/
theorem flush_empty_full (s : TxPort) (k : Nat) (hst : s.writeState = .full k)
    (hk : k ≠ 0) (hb : s.writeBuf.available_read = 0) :
    (flush (.ok ()) s =
      ⟨⟨s.writeBuf, .short⟩, .error .wouldBlock, some []⟩) ∧
    (∀ e, flush (.error e) s = ⟨s, .error e, some []⟩) := by
  constructor
  · simp [flush, hst, hb, hk]
  · intro e
    simp [flush, hst, hb, hk]

/-- Lemma: `flush` on an empty TX buffer with `fullCount = 0`: the state is set
to `Idle` and `Ok` is returned, with no endpoint call. -/
theorem flush_empty_notfull (resp : EpWriteResp) (s : TxPort)
    (hb : s.writeBuf.available_read = 0)
    (hfc : (match s.writeState with
      | WriteState.full c => c
      | _ => 0) = 0) :
    flush resp s = ⟨⟨s.writeBuf, .idle⟩, .ok (), none⟩ := by
  simp [flush, hb, hfc]

/-- Lemma: `flush` on a non-empty TX buffer against an accepting endpoint
returns `WouldBlock`. -/
theorem flush_nonempty_ok_result (s : TxPort)
    (hbp : 0 < s.writeBuf.available_read) :
    (flush (.ok ()) s).result = .error .wouldBlock := by
  simp only [flush, if_pos hbp]
  rw [Buffer.read_ok _ _ _ _ rfl]

/-- Lemma: `flush` on a non-empty TX buffer propagates an endpoint error with
the TX buffer (and the write state) unchanged. -/
theorem flush_nonempty_err (s : TxPort) (e : UsbError)
    (hbp : 0 < s.writeBuf.available_read) :
    (flush (.error e) s).result = .error e ∧
    (flush (.error e) s).port = s := by
  simp only [flush, if_pos hbp]
  rw [Buffer.read_err _ _ _ e rfl]
  exact ⟨rfl, rfl⟩

/-- A non-`WouldBlock` error from `flush` leaves the TX buffer exactly
as it was. -/
theorem flush_err_writeBuf (resp : EpWriteResp) (p : TxPort) (e : UsbError)
    (he : e ≠ .wouldBlock) (hres : (flush resp p).result = .error e) :
    (flush resp p).port.writeBuf = p.writeBuf := by
  by_cases hbp : 0 < p.writeBuf.available_read
  · cases resp with
    | ok u =>
        cases u
        have hwb := flush_nonempty_ok_result p hbp
        rw [hres] at hwb
        injection hwb with hwb'
        exact absurd hwb' he
    | error e' =>
        rw [(flush_nonempty_err p e' hbp).2]
  · have hb : p.writeBuf.available_read = 0 := by omega
    cases hst : p.writeState with
    | idle =>
        rw [flush_empty_notfull resp p hb (by rw [hst])]
    | short =>
        rw [flush_empty_notfull resp p hb (by rw [hst])]
    | full k =>
        cases k with
        | zero =>
            rw [flush_empty_notfull resp p hb (by rw [hst])]
        | succ n =>
            have hf := flush_empty_full p (n + 1) hst (Nat.succ_ne_zero n) hb
            cases resp with
            | ok u =>
                cases u
                rw [hf.1] at hres
                injection hres with hres'
                exact absurd hres'.symm he
            | error e' =>
                rw [hf.2 e']

/-- Unfolding `serialWrite` as a function of the flush outcome. -/
theorem serialWrite_eq (resp : EpWriteResp) (data : List Nat) (s : TxPort) :
    serialWrite resp data s =
      ((flush resp ⟨(s.writeBuf.write data).1, s.writeState⟩).port,
       match (flush resp
           ⟨(s.writeBuf.write data).1, s.writeState⟩).result with
       | .ok _ =>
           if (s.writeBuf.write data).2 = 0 then .error .wouldBlock
           else .ok (s.writeBuf.write data).2
       | .error .wouldBlock =>
           if (s.writeBuf.write data).2 = 0 then .error .wouldBlock
           else .ok (s.writeBuf.write data).2
       | .error e => .error e) := by
  simp only [serialWrite]
  cases (flush resp ⟨(s.writeBuf.write data).1, s.writeState⟩).result with
  | ok u => rfl
  | error e => cases e <;> rfl

/-- Shared setup for the `poll` lemmas: the staged slice has length
`maxPacketSize`. -/
theorem poll_slice_length (b : Buffer) (h : b.inv)
    (hcap : maxPacketSize ≤ b.available_write) :
    (((b.write_all_base maxPacketSize).store.drop
        (b.write_all_base maxPacketSize).wpos).take maxPacketSize).length =
      maxPacketSize := by
  have hc := Buffer.write_all_base_contig b maxPacketSize h hcap
  simp only [Buffer.available_write_without_discard] at hc
  rw [List.length_take, List.length_drop]
  omega

/-- Lemma: `poll` on a successful `read_packet` of `pkt`: `Ok` is returned,
exactly `pkt` is appended to the RX live window, and a stored RX waker
is taken and woken. -/
theorem poll_ok (pkt : List Nat) (s : RxPort) (hinv : s.readBuf.inv)
    (hcap : maxPacketSize ≤ s.readBuf.available_write)
    (hp : pkt.length ≤ maxPacketSize) :
    (poll (.ok pkt) s).result = .ok () ∧
    (poll (.ok pkt) s).port.readBuf.live = s.readBuf.live ++ pkt ∧
    (poll (.ok pkt) s).woke = s.readWaker ∧
    (poll (.ok pkt) s).port.readWaker = false := by
  have hbinv := Buffer.write_all_base_inv s.readBuf maxPacketSize hinv
  have hSlen := poll_slice_length s.readBuf hinv hcap
  have heq := Buffer.write_all_eq_core s.readBuf maxPacketSize
    (pollCallback (.ok pkt)) hcap
  have hcore := Buffer.write_all_core_ok
    (s.readBuf.write_all_base maxPacketSize) maxPacketSize
    (pollCallback (.ok pkt)) _ pkt.length rfl
  have hwa := heq.trans hcore
  rw [hSlen, List.take_of_length_le hp] at hwa
  have hlen2 : (pkt ++ (((s.readBuf.write_all_base maxPacketSize).store.drop
      (s.readBuf.write_all_base maxPacketSize).wpos).take
        maxPacketSize).drop pkt.length).length ≤ maxPacketSize := by
    rw [List.length_append, List.length_drop, hSlen]
    omega
  rw [List.take_of_length_le hlen2] at hwa
  refine ⟨?_, ?_, ?_, ?_⟩
  · simp only [poll, hwa]
  · simp only [poll, hwa]
    have hls := Buffer.live_set (s.readBuf.write_all_base maxPacketSize)
      (pkt ++ (((s.readBuf.write_all_base maxPacketSize).store.drop
        (s.readBuf.write_all_base maxPacketSize).wpos).take
          maxPacketSize).drop pkt.length) pkt.length hbinv
      (by rw [List.length_append]; omega)
    rw [hls, List.take_left,
      Buffer.write_all_base_live s.readBuf maxPacketSize hinv]
  · simp only [poll, hwa]
  · simp only [poll, hwa]

/-- Lemma: `poll` on `read_packet` = `WouldBlock`: `Ok` is returned, the RX
buffer commits nothing (the live window is unchanged), and a stored RX
waker is nevertheless taken and woken. -/
theorem poll_wb (s : RxPort) (hinv : s.readBuf.inv)
    (hcap : maxPacketSize ≤ s.readBuf.available_write) :
    (poll (.error .wouldBlock) s).result = .ok () ∧
    (poll (.error .wouldBlock) s).port.readBuf.live = s.readBuf.live ∧
    (poll (.error .wouldBlock) s).woke = s.readWaker ∧
    (poll (.error .wouldBlock) s).port.readWaker = false := by
  have heq := Buffer.write_all_eq_core s.readBuf maxPacketSize
    (pollCallback (.error .wouldBlock)) hcap
  have hcore := Buffer.write_all_core_ok
    (s.readBuf.write_all_base maxPacketSize) maxPacketSize
    (pollCallback (.error .wouldBlock)) _ 0 rfl
  have hwa := heq.trans hcore
  rw [List.take_take, Nat.min_self, setRange_self] at hwa
  have hb2 : Buffer.mk (s.readBuf.write_all_base maxPacketSize).store
      (s.readBuf.write_all_base maxPacketSize).rpos
      ((s.readBuf.write_all_base maxPacketSize).wpos + 0) =
      s.readBuf.write_all_base maxPacketSize := rfl
  rw [hb2] at hwa
  refine ⟨?_, ?_, ?_, ?_⟩
  · simp only [poll, hwa]
  · simp only [poll, hwa]
    exact Buffer.write_all_base_live s.readBuf maxPacketSize hinv
  · simp only [poll, hwa]
  · simp only [poll, hwa]

/-- Lemma: `poll` on a non-`WouldBlock` endpoint error: the error propagates,
nothing is committed, and no waker is woken. -/
theorem poll_err (e : UsbError) (he : e ≠ .wouldBlock) (s : RxPort)
    (hinv : s.readBuf.inv)
    (hcap : maxPacketSize ≤ s.readBuf.available_write) :
    (poll (.error e) s).result = .error e ∧
    (poll (.error e) s).port.readBuf.live = s.readBuf.live ∧
    (poll (.error e) s).woke = false ∧
    (poll (.error e) s).port.readWaker = s.readWaker := by
  have heq := Buffer.write_all_eq_core s.readBuf maxPacketSize
    (pollCallback (.error e)) hcap
  have hcb : pollCallback (.error e)
      (((s.readBuf.write_all_base maxPacketSize).store.drop
        (s.readBuf.write_all_base maxPacketSize).wpos).take maxPacketSize) =
      ((((s.readBuf.write_all_base maxPacketSize).store.drop
        (s.readBuf.write_all_base maxPacketSize).wpos).take maxPacketSize),
       .error e) := by
    cases e with
    | wouldBlock => exact absurd rfl he
    | parseError => rfl
    | bufferOverflow => rfl
    | endpointOverflow => rfl
    | endpointMemoryOverflow => rfl
    | invalidEndpoint => rfl
    | unsupported => rfl
    | invalidState => rfl
  have hcore := Buffer.write_all_core_err
    (s.readBuf.write_all_base maxPacketSize) maxPacketSize
    (pollCallback (.error e)) _ e hcb
  have hwa := heq.trans hcore
  rw [List.take_take, Nat.min_self, setRange_self] at hwa
  have hb2 : Buffer.mk (s.readBuf.write_all_base maxPacketSize).store
      (s.readBuf.write_all_base maxPacketSize).rpos
      (s.readBuf.write_all_base maxPacketSize).wpos =
      s.readBuf.write_all_base maxPacketSize := rfl
  rw [hb2] at hwa
  refine ⟨?_, ?_, ?_, ?_⟩
  · simp only [poll, hwa]
  · simp only [poll, hwa]
    exact Buffer.write_all_base_live s.readBuf maxPacketSize hinv
  · simp only [poll, hwa]
  · simp only [poll, hwa]

/-! ### Claims -/

/-- C9: `Error::kind` maps `Unsupported` to `Unsupported`; the three
overflow variants `BufferOverflow`, `EndpointOverflow` and
`EndpointMemoryOverflow` to `OutOfMemory`; and every remaining
`UsbError` variant to `Other`. -/
theorem error_kind_taxonomy :
    Error.kind .unsupported = .unsupported ∧
    Error.kind .bufferOverflow = .outOfMemory ∧
    Error.kind .endpointOverflow = .outOfMemory ∧
    Error.kind .endpointMemoryOverflow = .outOfMemory ∧
    Error.kind .wouldBlock = .other ∧
    Error.kind .parseError = .other ∧
    Error.kind .invalidEndpoint = .other ∧
    Error.kind .invalidState = .other := by
  decide

/-- C1, counterexample: with the write state at `Full(9)` — nine
consecutive full packets — and 64 buffered bytes against an
always-accepting endpoint, the next `flush` hands `write_packet` a
64-byte packet, not one capped at 63; consequently draining 768 buffered
bytes does not produce the claimed wire sequence of nine 64-byte
packets, then 63, 64, 64, 1. -/
theorem forced_short_packet_counterexample :
    ((flush (.ok ()) c1full9).packet.map List.length = some 64) ∧
    (drainFlush 20 c1port).map List.length ≠
      [64, 64, 64, 64, 64, 64, 64, 64, 64, 63, 64, 64, 1] := by
  decide

/-- C1, amended: the cap fires when `full_count ≥ SHORT_PACKET_INTERVAL
= 10`, i.e. on the call after ten consecutive full packets: at
`Full(9)` the next packet is still 64 bytes (reaching `Full(10)`), at
`Full(10)` the packet handed to `write_packet` is capped at 63 bytes
(state → `Short`); draining 768 buffered bytes therefore yields ten
64-byte packets, then 63, then 64, then 1. -/
theorem forced_short_packet_amended :
    ((flush (.ok ()) c1full9).packet.map List.length = some 64) ∧
    ((flush (.ok ()) c1full9).port.writeState = .full 10) ∧
    ((flush (.ok ()) c1full10).packet.map List.length = some 63) ∧
    ((flush (.ok ()) c1full10).port.writeState = .short) ∧
    (drainFlush 20 c1port).map List.length =
      [64, 64, 64, 64, 64, 64, 64, 64, 64, 64, 63, 64, 1] := by
  decide

/-- C2, counterexample: when `read_packet` reports `WouldBlock`, `poll`
still takes and wakes the stored RX waker (the `WouldBlock` is mapped to
`Ok(0)` inside the closure, so the wake branch after `write_all` runs):
on an empty 128-byte RX buffer with a stored waker, the waker is woken. -/
theorem poll_commit_counterexample :
    (poll (.error .wouldBlock) c2rx).woke = true ∧
    (poll (.error .wouldBlock) c2rx).port.readWaker = false := by
  decide

/-- C7, counterexample: a `write_all` whose reservation does not fit the
contiguous tail compacts the buffer before invoking the callback, so a
callback error does not leave `rpos` and `wpos` unchanged: on a buffer
with `rpos = 2`, `wpos = 4`, capacity 4, a failing `write_all 2` returns
the error but leaves `rpos = 0`, `wpos = 2`. -/
theorem callback_atomicity_counterexample :
    (c7buf.write_all 2 c7f).2 = .error () ∧
    c7buf.rpos = 2 ∧ c7buf.wpos = 4 ∧
    (c7buf.write_all 2 c7f).1.rpos = 0 ∧
    (c7buf.write_all 2 c7f).1.wpos = 2 := by
  decide

/-- C5: cursor discipline — a fresh buffer satisfies
`0 ≤ rpos ≤ wpos ≤ capacity`, every single operation whose callbacks
return counts no larger than their slices preserves it, and hence it
holds after each step of every such operation sequence. -/
theorem buffer_cursor_discipline :
    (∀ store : List Nat, (Buffer.new store).inv) ∧
    (∀ (E : Type) (op : BufOp E) (b : Buffer), goodOp op → b.inv →
       (applyOp op b).inv) ∧
    (∀ (E : Type) (ops : List (BufOp E)) (store : List Nat),
       (∀ op ∈ ops, goodOp op) → (runOps ops (Buffer.new store)).inv) := by
  refine ⟨?_, ?_, ?_⟩
  · intro store
    exact ⟨Nat.le_refl 0, Nat.zero_le _⟩
  · intro E op b hg h
    exact applyOp_inv op b hg h
  · intro E ops store hg
    exact runOps_inv ops _ hg ⟨Nat.le_refl 0, Nat.zero_le _⟩

/-- Witness for C5 at a concrete operation sequence. -/
theorem buffer_cursor_discipline_witness :
    (runOps (E := Unit)
        [BufOp.writeOp [1, 2],
         BufOp.readOp 1 (fun d => .ok d.length),
         BufOp.clearOp]
        (Buffer.new [0, 0, 0])).inv := by
  refine buffer_cursor_discipline.2.2 Unit _ _ ?_
  intro op hop
  simp only [List.mem_cons, List.not_mem_nil, or_false] at hop
  rcases hop with rfl | rfl | rfl
  · trivial
  · intro s c hc
    injection hc with he
    exact Nat.le_of_eq he.symm
  · trivial

/-- C6: FIFO order — over any interleaving of `write`s and reads whose
callbacks succeed with the full slice length, the concatenation of the
slices observed by the read callbacks is a prefix (in order, compaction
included) of the concatenation of the bytes accepted by the writes. -/
theorem fifo_order_preservation (ops : List IoOp) (store : List Nat) :
    ∃ t, (runFifo ops ⟨Buffer.new store, [], []⟩).observed ++ t =
      (runFifo ops ⟨Buffer.new store, [], []⟩).accepted := by
  have hg := runFifo_good ops ⟨Buffer.new store, [], []⟩
    ⟨⟨Nat.le_refl 0, Nat.zero_le _⟩, by
      simp [Buffer.live, Buffer.new, Buffer.available_read]⟩
  exact ⟨_, hg.2⟩

/-- C8: compaction discipline — `write` compacts (routes through
`discard_already_read_data`, which puts the live window at offset 0 and
preserves its contents) exactly when the data exceeds the contiguous
tail and `rpos > 0`; otherwise it runs the plain copy stage with `rpos`
untouched; and when the tail already suffices, no store byte outside the
newly written region `[wpos, wpos + count)` is modified. -/
theorem write_compaction_discipline (b : Buffer) (data : List Nat)
    (h : b.inv) :
    ((b.available_write_without_discard < data.length ∧ 0 < b.rpos) →
       b.write data = (b.discard_already_read_data).write_copy data ∧
       b.discard_already_read_data.rpos = 0 ∧
       b.discard_already_read_data.live = b.live) ∧
    (¬ (b.available_write_without_discard < data.length ∧ 0 < b.rpos) →
       b.write data = b.write_copy data ∧
       (b.write data).1.rpos = b.rpos) ∧
    (data.length ≤ b.available_write_without_discard →
       (b.write data).1.store.take b.wpos = b.store.take b.wpos ∧
       (b.write data).1.store.drop (b.wpos + (b.write data).2) =
         b.store.drop (b.wpos + (b.write data).2)) := by
  obtain ⟨h1, h2⟩ := h
  refine ⟨?_, ?_, ?_⟩
  · intro hc
    refine ⟨?_, rfl, Buffer.discard_live b ⟨h1, h2⟩⟩
    unfold Buffer.write
    rw [if_pos hc]
  · intro hc
    have hw : b.write data = b.write_copy data := by
      unfold Buffer.write
      rw [if_neg hc]
    refine ⟨hw, ?_⟩
    rw [hw]
    exact (Buffer.write_copy_spec b data ⟨h1, h2⟩).2.1
  · intro hfit
    have hc : ¬ (b.available_write_without_discard < data.length ∧
        0 < b.rpos) := by
      intro hcc
      omega
    have hw : b.write data = b.write_copy data := by
      unfold Buffer.write
      rw [if_neg hc]
    rw [hw, Buffer.write_copy_eq]
    by_cases h0 : min b.available_write_without_discard data.length = 0
    · rw [if_pos h0]
      exact ⟨rfl, rfl⟩
    · rw [if_neg h0]
      have htl : (data.take
          (min b.available_write_without_discard data.length)).length =
          min b.available_write_without_discard data.length := by
        rw [List.length_take]
        omega
      refine ⟨setRange_take b.store b.wpos _ h2, ?_⟩
      have hafter := setRange_drop_after b.store b.wpos
        (data.take (min b.available_write_without_discard data.length)) h2
      rw [htl] at hafter
      exact hafter

/-- Witness for C8 at a concrete compacting write. -/
theorem write_compaction_witness :
    ((⟨[1, 2, 3, 4], 2, 4⟩ : Buffer).write [9] =
       ((⟨[1, 2, 3, 4], 2, 4⟩ :
          Buffer).discard_already_read_data).write_copy [9]) ∧
    ((⟨[1, 2, 3, 4], 2, 4⟩ : Buffer).discard_already_read_data.live =
       (⟨[1, 2, 3, 4], 2, 4⟩ : Buffer).live) := by
  have h := write_compaction_discipline ⟨[1, 2, 3, 4], 2, 4⟩ [9] (by decide)
  have h1 := h.1 (by decide)
  exact ⟨h1.1, h1.2.2⟩

/-- C7, amended: the buffer propagates a callback error verbatim.
`read` then leaves the buffer entirely unchanged, and on success
advances `rpos` by exactly the returned count.  `write_all` may compact
before invoking the callback; relative to the staged buffer
(`write_all_base`, which holds the same live window) a callback error
leaves both cursors at their staged values and the live window
unchanged, and success advances `wpos` by exactly the returned count —
in particular, when the reservation fits the contiguous tail no
compaction happens and the cursors behave exactly as the original claim
states. -/
theorem callback_atomicity_amended :
    (∀ (E : Type) (b : Buffer) (m : Nat) (g : List Nat → Except E Nat)
       (e : E),
       g ((b.store.drop b.rpos).take (min m b.available_read)) = .error e →
       b.read m g = (b, .error e)) ∧
    (∀ (E : Type) (b : Buffer) (m : Nat) (g : List Nat → Except E Nat)
       (c : Nat),
       g ((b.store.drop b.rpos).take (min m b.available_read)) = .ok c →
       b.read m g = ({ b with rpos := b.rpos + c }, .ok c)) ∧
    (∀ (E : Type) (b : Buffer) (m : Nat)
       (f : List Nat → List Nat × Except E Nat) (e : E), b.inv →
       m ≤ b.available_write →
       (f (((b.write_all_base m).store.drop
           (b.write_all_base m).wpos).take m)).2 = .error e →
       (b.write_all m f).2 = .error e ∧
       (b.write_all m f).1.rpos = (b.write_all_base m).rpos ∧
       (b.write_all m f).1.wpos = (b.write_all_base m).wpos ∧
       (b.write_all m f).1.live = b.live ∧
       (m ≤ b.available_write_without_discard →
          (b.write_all m f).1.rpos = b.rpos ∧
          (b.write_all m f).1.wpos = b.wpos)) ∧
    (∀ (E : Type) (b : Buffer) (m : Nat)
       (f : List Nat → List Nat × Except E Nat) (c : Nat), b.inv →
       m ≤ b.available_write →
       (f (((b.write_all_base m).store.drop
           (b.write_all_base m).wpos).take m)).2 = .ok c →
       (b.write_all m f).2 = .ok c ∧
       (b.write_all m f).1.rpos = (b.write_all_base m).rpos ∧
       (b.write_all m f).1.wpos = (b.write_all_base m).wpos + c ∧
       (m ≤ b.available_write_without_discard →
          (b.write_all m f).1.rpos = b.rpos ∧
          (b.write_all m f).1.wpos = b.wpos + c)) := by
  refine ⟨?_, ?_, ?_, ?_⟩
  · intro E b m g e hf
    exact Buffer.read_err b m g e hf
  · intro E b m g c hf
    exact Buffer.read_ok b m g c hf
  · intro E b m f e h hm hf
    have heq := Buffer.write_all_eq_core b m f hm
    have hbinv := Buffer.write_all_base_inv b m h
    have hbl := Buffer.write_all_base_live b m h
    have hfe : f (((b.write_all_base m).store.drop
        (b.write_all_base m).wpos).take m) =
        ((f (((b.write_all_base m).store.drop
          (b.write_all_base m).wpos).take m)).1, .error e) := by
      rw [← hf]
    have hcore := Buffer.write_all_core_err (b.write_all_base m) m f _ e hfe
    rw [heq, hcore]
    have hbase : m ≤ b.available_write_without_discard →
        b.write_all_base m = b := by
      intro hmc
      unfold Buffer.write_all_base
      rw [if_neg (Nat.not_lt.mpr hmc)]
    refine ⟨rfl, rfl, rfl, ?_, ?_⟩
    · have hls := Buffer.live_set (b.write_all_base m)
        ((f (((b.write_all_base m).store.drop
          (b.write_all_base m).wpos).take m)).1.take m) 0 hbinv
        (Nat.zero_le _)
      simp only [List.take_zero, List.append_nil, Nat.add_zero] at hls
      rw [hls]
      exact hbl
    · intro hmc
      rw [hbase hmc]
      exact ⟨rfl, rfl⟩
  · intro E b m f c h hm hf
    have heq := Buffer.write_all_eq_core b m f hm
    have hfe : f (((b.write_all_base m).store.drop
        (b.write_all_base m).wpos).take m) =
        ((f (((b.write_all_base m).store.drop
          (b.write_all_base m).wpos).take m)).1, .ok c) := by
      rw [← hf]
    have hcore := Buffer.write_all_core_ok (b.write_all_base m) m f _ c hfe
    rw [heq, hcore]
    have hbase : m ≤ b.available_write_without_discard →
        b.write_all_base m = b := by
      intro hmc
      unfold Buffer.write_all_base
      rw [if_neg (Nat.not_lt.mpr hmc)]
    refine ⟨rfl, rfl, rfl, ?_⟩
    intro hmc
    rw [hbase hmc]
    exact ⟨rfl, rfl⟩

/-- Witness for C7 at a concrete in-tail `write_all`. -/
theorem callback_atomicity_witness :
    ((⟨[5, 6, 0, 0], 0, 2⟩ : Buffer).write_all 2
      (fun s => (List.replicate s.length 7,
        Except.ok (ε := Unit) s.length))).2 = .ok 2 ∧
    ((⟨[5, 6, 0, 0], 0, 2⟩ : Buffer).write_all 2
      (fun s => (List.replicate s.length 7,
        Except.ok (ε := Unit) s.length))).1.wpos = 2 + 2 := by
  have h := callback_atomicity_amended.2.2.2 Unit ⟨[5, 6, 0, 0], 0, 2⟩ 2
    (fun s => (List.replicate s.length 7, Except.ok s.length)) 2
    (by decide) (by decide) (by decide)
  exact ⟨h.1, (h.2.2.2 (by decide)).2⟩


/-- C3: `flush` with an empty TX buffer — in state `Full(k)`, `k > 0`,
it submits a zero-length packet; on endpoint success the state becomes
`Short` and `WouldBlock` is returned; on endpoint `WouldBlock` the state
is left unchanged and `WouldBlock` propagates; otherwise (state `Idle`
or `Short`) the state is set to `Idle` and `Ok` is returned, and `Ok`
is only returned when the full-packet count is zero. -/
theorem flush_empty_tx_contract (resp : EpWriteResp) (s : TxPort)
    (hb : s.writeBuf.available_read = 0) :
    (∀ k, s.writeState = .full k → 0 < k →
       (flush resp s).packet = some [] ∧
       (resp = .ok () →
          flush resp s =
            ⟨⟨s.writeBuf, .short⟩, .error .wouldBlock, some []⟩) ∧
       (resp = .error .wouldBlock →
          flush resp s = ⟨s, .error .wouldBlock, some []⟩)) ∧
    ((s.writeState = .idle ∨ s.writeState = .short) →
       flush resp s = ⟨⟨s.writeBuf, .idle⟩, .ok (), none⟩) ∧
    ((flush resp s).result = .ok () → ∀ k, s.writeState = .full k → k = 0) := by
  refine ⟨?_, ?_, ?_⟩
  · intro k hst hk
    have hf := flush_empty_full s k hst (Nat.pos_iff_ne_zero.mp hk) hb
    refine ⟨?_, ?_, ?_⟩
    · cases resp with
      | ok u =>
          cases u
          rw [hf.1]
      | error e =>
          rw [hf.2 e]
    · intro hr
      rw [hr, hf.1]
    · intro hr
      rw [hr, hf.2 .wouldBlock]
  · intro hst
    apply flush_empty_notfull resp s hb
    rcases hst with h | h <;> rw [h]
  · intro hres k hst
    by_contra hk
    have hf := flush_empty_full s k hst hk hb
    cases resp with
    | ok u =>
        cases u
        rw [hf.1] at hres
        simp at hres
    | error e =>
        rw [hf.2 e] at hres
        simp at hres

/-- Witness for C3 at concrete ports. -/
theorem flush_empty_tx_contract_witness :
    (flush (.ok ()) ⟨Buffer.new [0, 0], .full 3⟩ =
      ⟨⟨Buffer.new [0, 0], .short⟩, .error .wouldBlock, some []⟩) ∧
    (flush (.error .wouldBlock) ⟨Buffer.new [0, 0], .full 3⟩ =
      ⟨⟨Buffer.new [0, 0], .full 3⟩, .error .wouldBlock, some []⟩) ∧
    (flush (.ok ()) ⟨Buffer.new [0, 0], .idle⟩ =
      ⟨⟨Buffer.new [0, 0], .idle⟩, .ok (), none⟩) := by
  have h1 := flush_empty_tx_contract (.ok ()) ⟨Buffer.new [0, 0], .full 3⟩
    (by decide)
  have h2 := flush_empty_tx_contract (.error .wouldBlock)
    ⟨Buffer.new [0, 0], .full 3⟩ (by decide)
  have h3 := flush_empty_tx_contract (.ok ()) ⟨Buffer.new [0, 0], .idle⟩
    (by decide)
  refine ⟨((h1.1 3 rfl (by decide)).2.1 rfl), ?_, h3.2.1 (Or.inl rfl)⟩
  exact (h2.1 3 rfl (by decide)).2.2 rfl

/-- C4: `serialWrite` buffers as many bytes as fit (call the count `n`,
the live TX window grows by exactly those bytes), flushes once, and then
answers `WouldBlock` exactly when `n = 0` and the flush ended `Ok` or
`WouldBlock`; answers `Ok n` exactly when `n > 0` and the flush ended
`Ok` or `WouldBlock`; and propagates a non-`WouldBlock` flush error
verbatim while the freshly buffered bytes stay in the TX buffer. -/
theorem serial_write_contract (resp : EpWriteResp) (data : List Nat)
    (s : TxPort) (h : s.writeBuf.inv) :
    ((s.writeBuf.write data).1.live =
       s.writeBuf.live ++ data.take (s.writeBuf.write data).2) ∧
    ((serialWrite resp data s).2 = .error .wouldBlock ↔
       ((s.writeBuf.write data).2 = 0 ∧
         ((flush resp ⟨(s.writeBuf.write data).1, s.writeState⟩).result =
            .ok () ∨
          (flush resp ⟨(s.writeBuf.write data).1, s.writeState⟩).result =
            .error .wouldBlock))) ∧
    ((serialWrite resp data s).2 = .ok (s.writeBuf.write data).2 ↔
       (0 < (s.writeBuf.write data).2 ∧
         ((flush resp ⟨(s.writeBuf.write data).1, s.writeState⟩).result =
            .ok () ∨
          (flush resp ⟨(s.writeBuf.write data).1, s.writeState⟩).result =
            .error .wouldBlock))) ∧
    (∀ e, e ≠ .wouldBlock →
       (flush resp ⟨(s.writeBuf.write data).1, s.writeState⟩).result =
         .error e →
       (serialWrite resp data s).2 = .error e ∧
       (serialWrite resp data s).1.writeBuf = (s.writeBuf.write data).1) := by
  refine ⟨(Buffer.write_spec s.writeBuf data h).1, ?_⟩
  rw [serialWrite_eq]
  cases hres : (flush resp
      ⟨(s.writeBuf.write data).1, s.writeState⟩).result with
  | ok u =>
      cases u
      refine ⟨?_, ?_, ?_⟩
      · by_cases hz : (s.writeBuf.write data).2 = 0 <;> simp [hz]
      · by_cases hz : (s.writeBuf.write data).2 = 0 <;> simp [hz] <;> omega
      · intro e' hne heq
        simp at heq
  | error e =>
      cases e with
      | wouldBlock =>
          refine ⟨?_, ?_, ?_⟩
          · by_cases hz : (s.writeBuf.write data).2 = 0 <;> simp [hz]
          · by_cases hz : (s.writeBuf.write data).2 = 0 <;> simp [hz] <;>
              omega
          · intro e' hne heq
            injection heq with heq'
            exact absurd heq'.symm hne
      | parseError
      | bufferOverflow
      | endpointOverflow
      | endpointMemoryOverflow
      | invalidEndpoint
      | unsupported
      | invalidState =>
          refine ⟨by simp, by simp, ?_⟩
          intro e' hne heq
          injection heq with heq'
          subst heq'
          exact ⟨rfl, flush_err_writeBuf resp _ _ (by decide) hres⟩

/-- Witness for C4 at a concrete write. -/
theorem serial_write_contract_witness :
    (serialWrite (.ok ()) [1, 2, 3] ⟨Buffer.new [0, 0, 0, 0], .idle⟩).2 =
      .ok 3 := by
  have h := serial_write_contract (.ok ()) [1, 2, 3]
    ⟨Buffer.new [0, 0, 0, 0], .idle⟩ (by decide)
  exact h.2.2.1.mpr ⟨by decide, by decide⟩

/-- C2, amended: for every `poll` — on `read_packet` success with a
packet `pkt` of `k = pkt.length` bytes (fitting the packet size),
exactly those `k` bytes are appended to the RX buffer's live window and
any stored RX waker is taken and woken; on `WouldBlock`, 0 bytes are
committed but any stored RX waker is likewise taken and woken; on any
other endpoint error the error is propagated, nothing is committed, and
no waker is woken. -/
theorem poll_commit_amended (resp : EpReadResp) (s : RxPort)
    (hinv : s.readBuf.inv)
    (hcap : maxPacketSize ≤ s.readBuf.available_write) :
    (∀ pkt, resp = .ok pkt → pkt.length ≤ maxPacketSize →
       (poll resp s).result = .ok () ∧
       (poll resp s).port.readBuf.live = s.readBuf.live ++ pkt ∧
       (poll resp s).woke = s.readWaker ∧
       (poll resp s).port.readWaker = false) ∧
    (resp = .error .wouldBlock →
       (poll resp s).result = .ok () ∧
       (poll resp s).port.readBuf.live = s.readBuf.live ∧
       (poll resp s).woke = s.readWaker ∧
       (poll resp s).port.readWaker = false) ∧
    (∀ e, e ≠ .wouldBlock → resp = .error e →
       (poll resp s).result = .error e ∧
       (poll resp s).port.readBuf.live = s.readBuf.live ∧
       (poll resp s).woke = false ∧
       (poll resp s).port.readWaker = s.readWaker) := by
  refine ⟨?_, ?_, ?_⟩
  · intro pkt hr hp
    subst hr
    exact poll_ok pkt s hinv hcap hp
  · intro hr
    subst hr
    exact poll_wb s hinv hcap
  · intro e he hr
    subst hr
    exact poll_err e he s hinv hcap

/-- Witness for C2 at a concrete packet and port. -/
theorem poll_commit_amended_witness :
    (poll (.ok [1, 2, 3]) c2rx).result = .ok () ∧
    (poll (.ok [1, 2, 3]) c2rx).port.readBuf.live =
      c2rx.readBuf.live ++ [1, 2, 3] ∧
    (poll (.ok [1, 2, 3]) c2rx).woke = c2rx.readWaker := by
  have h := (poll_commit_amended (.ok [1, 2, 3]) c2rx (by decide)
    (by decide)).1 [1, 2, 3] rfl (by decide)
  exact ⟨h.1, h.2.1, h.2.2.1⟩

/-- C10: `serialRead` with an empty destination slice — when `poll`
succeeds and the RX buffer is non-empty it returns `Ok 0` (not
`WouldBlock`) and consumes nothing from the RX buffer; it returns
`WouldBlock` exactly when the RX buffer is empty after the poll. -/
theorem serial_read_empty_dst (resp : EpReadResp) (s : RxPort)
    (h : (poll resp s).result = .ok ()) :
    ((poll resp s).port.readBuf.available_read ≠ 0 →
       serialRead resp 0 s = ((poll resp s).port, .ok 0)) ∧
    ((serialRead resp 0 s).2 = .error .wouldBlock ↔
       (poll resp s).port.readBuf.available_read = 0) := by
  have hread : (poll resp s).port.readBuf.read 0
      (fun d => Except.ok (ε := UsbError) d.length) =
      ((poll resp s).port.readBuf, .ok 0) :=
    Buffer.read_ok ((poll resp s).port.readBuf) 0 _ 0 (by simp)
  by_cases ha : (poll resp s).port.readBuf.available_read = 0
  · constructor
    · intro hne
      exact absurd ha hne
    · simp only [serialRead, h, ha]
      simp
  · constructor
    · intro _
      simp only [serialRead, h, if_neg ha, hread]
    · simp only [serialRead, h, if_neg ha, hread]
      simp [ha]

/-- Witness for C10 at a concrete port holding five buffered bytes. -/
theorem serial_read_empty_dst_witness :
    serialRead (.error .wouldBlock) 0 c10rx =
      ((poll (.error .wouldBlock) c10rx).port, .ok 0) := by
  have h := serial_read_empty_dst (.error .wouldBlock) c10rx (by decide)
  exact h.1 (by decide)

end UsbdSerial
